import Mathlib

/-!
Shallow embedding of the core label data structures and objective function of
the routing-framework repository:

* `Tools/Constants.h` — the `INFTY` sentinel;
* `DataStructures/Labels/BasicLabelSet.h` — `LabelMask`, `DistanceLabel`,
  `ParentEdge`, `ParentVertex`;
* `DataStructures/Labels/Containers/StampedDistanceLabelContainer.h` — the
  generation-stamped distance-label container;
* `Algorithms/TrafficAssignment/ObjectiveFunctions/SystemOptimum.h` — the
  marginal-cost edge weighting.

Machine integers (`int` in the C++ source) are modelled as `Int`; the one place
where signed wraparound matters (the generation clock in `init`) applies an
explicit two's-complement wrap at 32 bits.  C++ `float` arithmetic in
`SystemOptimum` is modelled by exact rational arithmetic; on the concrete
operands appearing in the claims every floating-point operation is exact, so
the rational model agrees with the source there.  Uninitialized storage
(default-constructed labels and masks) is modelled by an explicit parameter
holding the arbitrary pre-existing contents of the storage.
-/

namespace RoutingFramework

/-- From `Tools/Constants.h`: `constexpr int INFTY = std::numeric_limits<int>::max() / 2;`,
that is `2147483647 / 2 = 1073741823`. -/
def INFTY : Int := 2147483647 / 2

/-- The constant `INT_MAX = 2^31 - 1`, the largest value of a 32-bit signed `int`. -/
def intMax : Int := 2147483647

/-- Two's-complement wraparound at 32 bits (`2147483648 = 2^31`,
`4294967296 = 2^32`), used to model the increment `++clock` of the
`int`-typed generation clock. -/
def wrap32 (x : Int) : Int := (x + 2147483648) % 4294967296 - 2147483648

/-- From `BasicLabelSet.h`, class `LabelMask`: an array of `K` booleans, one flag
per packed component. -/
structure LabelMask (K : Nat) where
  isMarked : Fin K → Bool

namespace LabelMask

/-- The constructor `LabelMask() = default;` — constructs an *uninitialized* mask: the flag
array holds whatever contents `junk` the underlying storage already had. -/
def default {K : Nat} (junk : Fin K → Bool) : LabelMask K := ⟨junk⟩

/-- The constructor `explicit LabelMask(const int i)` — fills the array with `false`, then
sets `isMarked[i] = true`: a mask marking exactly the `i`-th component. -/
def single {K : Nat} (i : Fin K) : LabelMask K := ⟨fun j => j = i⟩

/-- The conversion `operator bool()` — `true` iff at least one component is marked:
`res = isMarked[0]; for i in [1, K+1) res |= isMarked[i]`.  The source indexes
`isMarked[0]` unconditionally, so the mask has at least one component; the size
is written `K + 1` here to make that explicit. -/
def toBool {K : Nat} (m : LabelMask (K + 1)) : Bool :=
  (List.finRange (K + 1)).foldl (fun r i => r || m.isMarked i) false

end LabelMask

/-- From `BasicLabelSet.h`, class `DistanceLabel`: a packed array of `K` distance
values (`int` per component). -/
structure DistanceLabel (K : Nat) where
  values : Fin K → Int

namespace DistanceLabel

/-- The converting constructor `DistanceLabel(const int val)` and `operator=(const int val)` — broadcasts a
scalar to all `K` components. -/
def broadcast {K : Nat} (val : Int) : DistanceLabel K := ⟨fun _ => val⟩

/-- The operation `operator+(const int rhs)` — packed sum of this label plus a scalar. -/
def addScalar {K : Nat} (a : DistanceLabel K) (rhs : Int) : DistanceLabel K :=
  ⟨fun i => a.values i + rhs⟩

/-- The operation `void min(const DistanceLabel& other)` — the packed minimum:
`values[i] = std::min(values[i].load(), other.values[i].load())` for every
`i < K`.  The argument `other` is taken by const reference and never written,
so in this functional embedding only the receiver's new value is returned. -/
def min {K : Nat} (a other : DistanceLabel K) : DistanceLabel K :=
  ⟨fun i => Min.min (a.values i) (other.values i)⟩

/-- The operation `int getKey()` — the minimum value across all `K` components (the source
reads `values[0]` first, so `K ≥ 1`; the size is written `K + 1` here). -/
def getKey {K : Nat} (a : DistanceLabel (K + 1)) : Int :=
  (List.finRange (K + 1)).foldl (fun m i => Min.min m (a.values i)) (a.values 0)

end DistanceLabel

/-- From `BasicLabelSet.h`, class `ParentVertex` for the full-parent-info
configuration: `ParentVertex` derives from `ParentEdge`, so the label carries
both the `K` parent vertices and the `K` parent edges. -/
structure ParentVertexEdge (K : Nat) where
  vertices : Fin K → Int
  edges : Fin K → Int

namespace ParentVertexEdge

/-- The operation `void setVertex(const int u, const LabelMask& mask)` —
`vertices[i] = mask[i] ? u : vertices[i]` for every `i < K`. -/
def setVertex {K : Nat} (p : ParentVertexEdge K) (u : Int) (mask : LabelMask K) :
    ParentVertexEdge K :=
  { p with vertices := fun i => if mask.isMarked i then u else p.vertices i }

/-- The operation `void setEdge(const int e, const LabelMask& mask)` —
`edges[i] = mask[i] ? e : edges[i]` for every `i < K`. -/
def setEdge {K : Nat} (p : ParentVertexEdge K) (e : Int) (mask : LabelMask K) :
    ParentVertexEdge K :=
  { p with edges := fun i => if mask.isMarked i then e else p.edges i }

end ParentVertexEdge

/-- From `StampedDistanceLabelContainer.h`: per-vertex distance labels and
timestamps (both arrays of size `numVertices = n`), plus the global `int`
clock.  The container is generic in the label type in the source; here it is
instantiated at `DistanceLabel K`. -/
structure StampedDistanceLabelContainer (K n : Nat) where
  distanceLabels : Fin n → DistanceLabel K
  timestamps : Fin n → Int
  clock : Int

namespace StampedDistanceLabelContainer

/-- The constructor: `distanceLabels(numVertices), timestamps(numVertices),
clock(0)` followed by `std::fill(timestamps.begin(), timestamps.end(), 0)`.
The distance labels are default-constructed (`DistanceLabel() = default`, an
uninitialized label); `labels0` holds whatever contents that default
construction leaves in the storage. -/
def construct {K n : Nat} (labels0 : Fin n → DistanceLabel K) :
    StampedDistanceLabelContainer K n :=
  { distanceLabels := labels0, timestamps := fun _ => 0, clock := 0 }

/-- The operation `void init()` — `++clock` (a 32-bit signed increment, hence the wrap);
if the incremented clock is negative (overflow), fill all timestamps with `0`
and set the clock to `1`.  The source writes the incremented value into
`clock` and then tests it; the net state transition is the conditional
below. -/
def init {K n : Nat} (c : StampedDistanceLabelContainer K n) :
    StampedDistanceLabelContainer K n :=
  if wrap32 (c.clock + 1) < 0 then
    { c with timestamps := fun _ => 0, clock := 1 }
  else
    { c with clock := wrap32 (c.clock + 1) }

/-- The state effect of the mutable access `operator[](const int v)`: if
`timestamps[v] != clock`, write `INFTY` into `v`'s label and stamp `v` with
the current clock; otherwise leave the state unchanged.  The returned
reference itself is `distanceLabels[v]` of the resulting state. -/
def access {K n : Nat} (c : StampedDistanceLabelContainer K n) (v : Fin n) :
    StampedDistanceLabelContainer K n :=
  if c.timestamps v ≠ c.clock then
    { c with
      distanceLabels := Function.update c.distanceLabels v (DistanceLabel.broadcast INFTY),
      timestamps := Function.update c.timestamps v c.clock }
  else c

/-- Storing a label through the mutable access path: `container[v] = L`
first performs the `operator[]` state effect, then assigns `L` through the
returned reference. -/
def writeLabel {K n : Nat} (c : StampedDistanceLabelContainer K n) (v : Fin n)
    (L : DistanceLabel K) : StampedDistanceLabelContainer K n :=
  { access c v with distanceLabels := Function.update (access c v).distanceLabels v L }

/-- The operation `DistanceLabelT get(const int v) const` — returns `distanceLabels[v]` if
`timestamps[v] == clock`, else `INFTY` (broadcast to all components by the
converting constructor `DistanceLabel(const int val)`). -/
def get {K n : Nat} (c : StampedDistanceLabelContainer K n) (v : Fin n) :
    DistanceLabel K :=
  if c.timestamps v = c.clock then c.distanceLabels v else DistanceLabel.broadcast INFTY

/-- One state-changing operation on the container: a reset (`init`), a bare
mutable access (`operator[]`), or a mutable access followed by storing a
label through the returned reference. -/
inductive Op (K n : Nat) where
  | init : Op K n
  | access (v : Fin n) : Op K n
  | write (v : Fin n) (L : DistanceLabel K) : Op K n

/-- Interpretation of one operation as a state transition. -/
def step {K n : Nat} (c : StampedDistanceLabelContainer K n) :
    Op K n → StampedDistanceLabelContainer K n
  | .init => c.init
  | .access v => c.access v
  | .write v L => c.writeLabel v L

/-- Running a sequence of operations from left to right. -/
def run {K n : Nat} (c : StampedDistanceLabelContainer K n) (ops : List (Op K n)) :
    StampedDistanceLabelContainer K n :=
  ops.foldl step c

/-- Returns `true` iff the operation can change vertex `v`'s timestamp or stored
label, or the clock: every reset does, and an access or write does exactly
when it targets `v`. -/
def Op.affects {K n : Nat} : Op K n → Fin n → Bool
  | .init, _ => true
  | .access u, v => u = v
  | .write u _, v => u = v

/-- The container invariant: the clock is a nonnegative `int`, and every
timestamp lies between `0` and the current clock. -/
def Inv {K n : Nat} (c : StampedDistanceLabelContainer K n) : Prop :=
  0 ≤ c.clock ∧ c.clock ≤ intMax ∧ ∀ v, 0 ≤ c.timestamps v ∧ c.timestamps v ≤ c.clock

end StampedDistanceLabelContainer

/-- From `SystemOptimum.h`: the wrapped travel-cost functor, supplying
`cost(e, x)` (via `operator()`) and `derivative(e, x)`, both for a scalar
flow and for an eight-wide vector of flows (`Vec8f`).  C++ `float` values are
modelled as exact rationals; an eight-wide vector is `Fin 8 → ℚ`. -/
structure TravelCostFunction where
  cost : Int → ℚ → ℚ
  derivative : Int → ℚ → ℚ
  costVec : Int → (Fin 8 → ℚ) → (Fin 8 → ℚ)
  derivativeVec : Int → (Fin 8 → ℚ) → (Fin 8 → ℚ)

namespace SystemOptimum

/-- The operation `float getEdgeWeight(const int e, const float x)` —
`travelCostFunction(e, x) + x * travelCostFunction.derivative(e, x)`. -/
def getEdgeWeight (f : TravelCostFunction) (e : Int) (x : ℚ) : ℚ :=
  f.cost e x + x * f.derivative e x

/-- The operation `Vec8f getEdgeWeights(const int e, const Vec8f& x)` — the same expression
on the vector overloads, with `Vec8f` addition and multiplication acting
lanewise. -/
def getEdgeWeights (f : TravelCostFunction) (e : Int) (x : Fin 8 → ℚ) :
    Fin 8 → ℚ :=
  fun i => f.costVec e x i + x i * f.derivativeVec e x i

end SystemOptimum

/-- The travel-cost functor of the spec's concrete scenario: a linear cost
`cost(e, x) = a·x + b` with constant derivative `a`, with the eight-wide
overloads applying the same formula lanewise. -/
def linearCost (a b : ℚ) : TravelCostFunction where
  cost := fun _ x => a * x + b
  derivative := fun _ _ => a
  costVec := fun _ x i => a * x i + b
  derivativeVec := fun _ _ _ => a

/-! ### Helper lemmas about the stamped container -/

namespace StampedDistanceLabelContainer

theorem wrap32_eq_self {x : Int} (h1 : -2147483648 ≤ x) (h2 : x ≤ 2147483647) :
    wrap32 x = x := by
  unfold wrap32
  omega

theorem wrap32_intMax_succ_neg : wrap32 (intMax + 1) < 0 := by
  unfold wrap32 intMax
  decide

theorem inv_construct {K n : Nat} (labels0 : Fin n → DistanceLabel K) :
    Inv (construct labels0) := by
  refine ⟨le_refl 0, ?_, fun v => ⟨le_refl 0, le_refl 0⟩⟩
  simp only [construct, intMax]
  omega

theorem inv_init {K n : Nat} {c : StampedDistanceLabelContainer K n} (h : Inv c) :
    Inv c.init := by
  obtain ⟨h0, hmax, hts⟩ := h
  by_cases hlt : wrap32 (c.clock + 1) < 0
  · simp only [Inv, init, if_pos hlt, intMax]
    exact ⟨by omega, by omega, fun v => ⟨le_refl 0, by omega⟩⟩
  · have hne : c.clock ≠ intMax := fun hc => hlt (hc ▸ wrap32_intMax_succ_neg)
    have hcm : c.clock < intMax := lt_of_le_of_ne hmax hne
    unfold intMax at hcm
    have hw : wrap32 (c.clock + 1) = c.clock + 1 := wrap32_eq_self (by omega) (by omega)
    simp only [Inv, init, if_neg hlt]
    simp only [hw, intMax]
    refine ⟨by omega, by omega, fun v => ⟨(hts v).1, ?_⟩⟩
    have := (hts v).2
    omega

theorem inv_access {K n : Nat} {c : StampedDistanceLabelContainer K n} (h : Inv c)
    (v : Fin n) : Inv (c.access v) := by
  obtain ⟨h0, hmax, hts⟩ := h
  unfold access
  split
  · refine ⟨h0, hmax, fun u => ?_⟩
    by_cases huv : u = v
    · subst huv
      simp [Function.update_same, h0]
    · simp only [Function.update_noteq huv]
      exact hts u
  · exact ⟨h0, hmax, hts⟩

theorem inv_writeLabel {K n : Nat} {c : StampedDistanceLabelContainer K n} (h : Inv c)
    (v : Fin n) (L : DistanceLabel K) : Inv (c.writeLabel v L) := by
  have h' := inv_access h v
  obtain ⟨h0, hmax, hts⟩ := h'
  exact ⟨h0, hmax, hts⟩

theorem inv_step {K n : Nat} {c : StampedDistanceLabelContainer K n} (h : Inv c)
    (o : Op K n) : Inv (step c o) := by
  cases o with
  | init => exact inv_init h
  | access v => exact inv_access h v
  | write v L => exact inv_writeLabel h v L

theorem inv_run {K n : Nat} {c : StampedDistanceLabelContainer K n} (h : Inv c)
    (ops : List (Op K n)) : Inv (run c ops) := by
  induction ops generalizing c with
  | nil => exact h
  | cons o rest ih => exact ih (inv_step h o)

theorem get_init_broadcast {K n : Nat} {c : StampedDistanceLabelContainer K n}
    (h : Inv c) (v : Fin n) : get c.init v = DistanceLabel.broadcast INFTY := by
  obtain ⟨h0, hmax, hts⟩ := h
  by_cases hlt : wrap32 (c.clock + 1) < 0
  · simp only [StampedDistanceLabelContainer.get, init, if_pos hlt]
    rw [if_neg (by omega)]
  · have hne : c.clock ≠ intMax := fun hc => hlt (hc ▸ wrap32_intMax_succ_neg)
    have hcm : c.clock < intMax := lt_of_le_of_ne hmax hne
    unfold intMax at hcm
    have hw : wrap32 (c.clock + 1) = c.clock + 1 := wrap32_eq_self (by omega) (by omega)
    simp only [get, init, if_neg hlt]
    simp only [hw]
    have hlt2 : c.timestamps v < c.clock + 1 := by
      have := (hts v).2
      omega
    rw [if_neg (by omega)]

theorem step_unaffected {K n : Nat} {o : Op K n} {v : Fin n}
    (h : o.affects v = false) (c : StampedDistanceLabelContainer K n) :
    (step c o).timestamps v = c.timestamps v ∧
    (step c o).distanceLabels v = c.distanceLabels v ∧
    (step c o).clock = c.clock := by
  cases o with
  | init => simp [Op.affects] at h
  | access u =>
    have huv : u ≠ v := by simpa [Op.affects] using h
    simp only [step, access]
    split
    · exact ⟨Function.update_noteq (Ne.symm huv) _ _,
        Function.update_noteq (Ne.symm huv) _ _, rfl⟩
    · exact ⟨rfl, rfl, rfl⟩
  | write u L =>
    have huv : u ≠ v := by simpa [Op.affects] using h
    simp only [step, writeLabel, access]
    split
    · exact ⟨Function.update_noteq (Ne.symm huv) _ _,
        (Function.update_noteq (Ne.symm huv) _ _).trans
          (Function.update_noteq (Ne.symm huv) _ _), rfl⟩
    · exact ⟨rfl, Function.update_noteq (Ne.symm huv) _ _, rfl⟩

theorem run_unaffected {K n : Nat} {ops : List (Op K n)} {v : Fin n}
    (h : ∀ o ∈ ops, o.affects v = false) (c : StampedDistanceLabelContainer K n) :
    (run c ops).timestamps v = c.timestamps v ∧
    (run c ops).distanceLabels v = c.distanceLabels v ∧
    (run c ops).clock = c.clock := by
  induction ops generalizing c with
  | nil => exact ⟨rfl, rfl, rfl⟩
  | cons o rest ih =>
    have h1 := step_unaffected (h o (List.mem_cons_self o rest)) c
    have h2 := ih (fun o' ho' => h o' (List.mem_cons_of_mem o ho')) (step c o)
    exact ⟨h2.1.trans h1.1, h2.2.1.trans h1.2.1, h2.2.2.trans h1.2.2⟩

theorem get_run_unaffected {K n : Nat} {ops : List (Op K n)} {v : Fin n}
    (h : ∀ o ∈ ops, o.affects v = false) (c : StampedDistanceLabelContainer K n) :
    get (run c ops) v = get c v := by
  obtain ⟨ht, hl, hc⟩ := run_unaffected h c
  simp only [get, ht, hl, hc]

end StampedDistanceLabelContainer

/-! ### Claim theorems -/

open StampedDistanceLabelContainer

/-- C1: For every `K` and every container size `n`, after a reset (`init`)
call, `get v` returns `INFTY` for every vertex `v` that has not been accessed
via the mutable index since that reset: for any history `ops1` before the
reset (covering both the freshly constructed container and a container that
already holds values written in a previous generation) and any subsequent
operations `ops2` that neither reset the container nor touch `v`, the
read-only access on `v` yields the `INFTY` label. -/
theorem stamped_get_INFTY_after_reset {K n : Nat} (labels0 : Fin n → DistanceLabel K)
    (ops1 ops2 : List (Op K n)) (v : Fin n)
    (h : ∀ o ∈ ops2, o.affects v = false) :
    get (run (init (run (construct labels0) ops1)) ops2) v =
      DistanceLabel.broadcast INFTY := by
  rw [get_run_unaffected h]
  exact get_init_broadcast (inv_run (inv_construct labels0) ops1) v

/-- Witness for C1: `K = 2`, `n = 3`; the history performs a first reset and
writes the label `7` to vertex `0`, then a second reset; afterwards vertex `1`
is accessed but vertex `0` is not, and `get 0` returns `INFTY` even though
vertex `0`'s slot still holds `7` from the previous generation. -/
theorem stamped_get_INFTY_after_reset_witness :
    get (run (init (run (construct (fun _ => DistanceLabel.broadcast 0 :
          Fin 3 → DistanceLabel 2))
        [Op.init, Op.write 0 (DistanceLabel.broadcast 7)])) [Op.access 1]) 0 =
      DistanceLabel.broadcast INFTY :=
  stamped_get_INFTY_after_reset _ _ _ 0 (by
    intro o ho
    rw [List.mem_singleton] at ho
    subst ho
    rfl)

/-- C2: If the clock sits at `INT_MAX`, so that the increment in `init`
overflows, then `init` clears every timestamp to `0` and sets the clock to
`1`, and afterwards `get v` returns `INFTY` for every vertex `v`. -/
theorem init_clock_overflow_clears {K n : Nat} (c : StampedDistanceLabelContainer K n)
    (h : c.clock = intMax) :
    c.init.clock = 1 ∧ (∀ v, c.init.timestamps v = 0) ∧
      ∀ v, get c.init v = DistanceLabel.broadcast INFTY := by
  have hlt : wrap32 (c.clock + 1) < 0 := h ▸ wrap32_intMax_succ_neg
  refine ⟨?_, fun v => ?_, fun v => ?_⟩
  · simp only [init, if_pos hlt]
  · simp only [init, if_pos hlt]
  · simp only [StampedDistanceLabelContainer.get, init, if_pos hlt]
    rw [if_neg (by omega)]

/-- Witness for C2: a one-vertex container whose clock is exactly `INT_MAX`;
the reset falls back to the full clear and leaves the clock at `1`. -/
theorem init_clock_overflow_clears_witness :
    (init (StampedDistanceLabelContainer.mk (fun _ => DistanceLabel.broadcast 0)
        (fun _ => 0) intMax : StampedDistanceLabelContainer 1 1)).clock = 1 :=
  (init_clock_overflow_clears _ rfl).1

/-- C3: Within one generation, storing a distance label `L` into vertex
`v` through the mutable access path makes a subsequent read-only `get v`
return `L`: the mutable access stamps `v` with the current clock, so the
stored value is visible to reads. -/
theorem get_writeLabel_same {K n : Nat} (c : StampedDistanceLabelContainer K n)
    (v : Fin n) (L : DistanceLabel K) : get (c.writeLabel v L) v = L := by
  unfold StampedDistanceLabelContainer.get writeLabel access
  by_cases hts : c.timestamps v ≠ c.clock
  · simp [hts, Function.update_same]
  · push_neg at hts
    simp [hts, Function.update_same]

/-- C4: `a.min(b)` sets every component `i` of the receiver to the
smaller of the original `a.values i` and `b.values i` (the argument `b` is
taken by const reference and never written, so only the receiver changes),
and performing the operation a second time with the same argument leaves the
receiver unchanged. -/
theorem distanceLabel_min_componentwise {K : Nat} (a b : DistanceLabel K) (i : Fin K) :
    (a.min b).values i = Min.min (a.values i) (b.values i) ∧
      (a.min b).min b = a.min b := by
  refine ⟨rfl, ?_⟩
  simp only [DistanceLabel.min]
  exact congrArg DistanceLabel.mk (funext fun j => by rw [min_assoc, min_self])

/-- C5: `getEdgeWeight e x` equals `cost e x + x * derivative e x` of the
wrapped travel-cost functor, and for the functor with `cost e x = 2x + 5` and
derivative `2` it yields `17` at flow `3`. -/
theorem systemOptimum_getEdgeWeight_marginal (f : TravelCostFunction) (e : Int) (x : ℚ) :
    SystemOptimum.getEdgeWeight f e x = f.cost e x + x * f.derivative e x ∧
      SystemOptimum.getEdgeWeight (linearCost 2 5) e 3 = 17 :=
  ⟨rfl, by norm_num [SystemOptimum.getEdgeWeight, linearCost]⟩

/-- C6: When the wrapped functor's eight-wide overloads agree lanewise
with its scalar overloads, `getEdgeWeights` produces in every lane exactly
the value of the scalar `getEdgeWeight` on that lane's flow. -/
theorem systemOptimum_getEdgeWeights_lanewise (f : TravelCostFunction) (e : Int)
    (x : Fin 8 → ℚ)
    (hc : ∀ e' x' i, f.costVec e' x' i = f.cost e' (x' i))
    (hd : ∀ e' x' i, f.derivativeVec e' x' i = f.derivative e' (x' i)) (i : Fin 8) :
    SystemOptimum.getEdgeWeights f e x i = SystemOptimum.getEdgeWeight f e (x i) := by
  simp only [SystemOptimum.getEdgeWeights, SystemOptimum.getEdgeWeight, hc, hd]

/-- Witness for C6: the linear functor `cost e x = 2x + 5` with constant
derivative `2`, whose vector overloads are lanewise identical to the scalar
ones, evaluated at flow `3` in lane `0`. -/
theorem systemOptimum_getEdgeWeights_lanewise_witness :
    SystemOptimum.getEdgeWeights (linearCost 2 5) 0 (fun _ => 3) 0 =
      SystemOptimum.getEdgeWeight (linearCost 2 5) 0 3 :=
  systemOptimum_getEdgeWeights_lanewise (linearCost 2 5) 0 (fun _ => 3)
    (fun _ _ _ => rfl) (fun _ _ _ => rfl) 0

/-- C7 counterexample: The empty (default) `LabelMask` constructor is
`LabelMask() = default;`, which leaves the flag array uninitialized rather
than all-false: a default-constructed mask over storage holding `true` bits
has a `true` component, refuting the claim that all `K` components are
`false` after empty construction. -/
theorem labelMask_default_marks_component :
    (LabelMask.default (fun _ => true) : LabelMask 2).isMarked 0 = true := rfl

/-- C7 amended: The default `LabelMask` constructor is uninitialized:
its components hold whatever values were already in the underlying storage.
Constructing a `LabelMask` with index `i` marks exactly component `i`. -/
theorem labelMask_constructors {K : Nat} (junk : Fin K → Bool) (i j : Fin K) :
    (LabelMask.default junk).isMarked j = junk j ∧
      (LabelMask.single i).isMarked j = decide (j = i) :=
  ⟨rfl, rfl⟩

/-- C8: For the vertices-and-edges parent-tracking configuration,
`setVertex u m` followed by `setEdge e m` sets the parent vertex to `u` and
the parent edge to `e` exactly for the components `i` with `m.isMarked i`,
and leaves both fields of every unmarked component at their previous
values. -/
theorem parentLabel_setVertex_setEdge_frame {K : Nat} (p : ParentVertexEdge K)
    (u e : Int) (m : LabelMask K) (i : Fin K) :
    ((p.setVertex u m).setEdge e m).vertices i =
        (if m.isMarked i then u else p.vertices i) ∧
      ((p.setVertex u m).setEdge e m).edges i =
        (if m.isMarked i then e else p.edges i) :=
  ⟨rfl, rfl⟩

/-- C9: After any sequence of construction, reset, mutable-index and
write operations, every vertex's timestamp is at most the current clock;
consequently, whenever `timestamps v ≠ clock` (the lazy-clear path of the
mutable access), the debug assertion `timestamps[v] < clock` holds. -/
theorem stamped_timestamps_le_clock {K n : Nat} (labels0 : Fin n → DistanceLabel K)
    (ops : List (Op K n)) (v : Fin n) :
    (run (construct labels0) ops).timestamps v ≤ (run (construct labels0) ops).clock ∧
      ((run (construct labels0) ops).timestamps v ≠ (run (construct labels0) ops).clock →
        (run (construct labels0) ops).timestamps v < (run (construct labels0) ops).clock) := by
  have h := inv_run (inv_construct labels0) ops
  exact ⟨(h.2.2 v).2, fun hne => lt_of_le_of_ne (h.2.2 v).2 hne⟩

/-- Witness for C9: after one reset on a one-vertex container, the vertex's
timestamp (`0`) is strictly below the clock (`1`). -/
theorem stamped_timestamps_le_clock_witness :
    (run (construct (fun _ => DistanceLabel.broadcast 0 : Fin 1 → DistanceLabel 1))
        [Op.init]).timestamps 0 <
      (run (construct (fun _ => DistanceLabel.broadcast 0 : Fin 1 → DistanceLabel 1))
        [Op.init]).clock :=
  (stamped_timestamps_le_clock _ [Op.init] 0).2 (by decide)

/-- C10: On a freshly constructed container, before any reset, every
vertex's timestamp equals the clock (both are `0`), so `get v` takes the
timestamp-matches branch and returns the stored default-constructed label
`labels0 v` — not the `INFTY` fallback. -/
theorem construct_get_returns_stored {K n : Nat} (labels0 : Fin n → DistanceLabel K)
    (v : Fin n) :
    (construct labels0).timestamps v = (construct labels0).clock ∧
      get (construct labels0) v = labels0 v :=
  ⟨rfl, by simp [StampedDistanceLabelContainer.get, construct]⟩

end RoutingFramework
